/-
Verification of the challenge-mapping, credential-resolution and
job-polling logic of the cert-manager webhook for the Variomedia DNS API.

The Go source is embedded shallowly:
  * Go `map[string]V` becomes an association list `GoMap V` with Go's
    read-zero-value / delete-no-op semantics made explicit;
  * the HTTP world is a list of `ProviderResp` values consumed in order,
    one per request issued; an exhausted list behaves like a transport
    failure, and `doRequest`'s rule that only 200/202 bodies are read is
    kept;
  * the poll loops of `UpdateTxtRecord` / `DeleteTxtRecord` become
    structural recursion on the Go `loopcount` counter.  In
    `DeleteTxtRecord` the Go `:=` inside the loop body shadows the outer
    `status` variable, so the outer variable keeps the status of the
    initial DELETE forever; the embedding reproduces this by threading
    the initial status `s0` separately from the polled status.
-/
import Mathlib

set_option linter.unusedVariables false

/-! ## Go maps as association lists -/

/-- A Go `map[string]α`, embedded as an association list. -/
def GoMap (α : Type) : Type := List (String × α)

instance (α : Type) [DecidableEq α] : DecidableEq (GoMap α) :=
  inferInstanceAs (DecidableEq (List (String × α)))

instance (α : Type) [Repr α] : Repr (GoMap α) :=
  inferInstanceAs (Repr (List (String × α)))

instance (α : Type) : Membership (String × α) (GoMap α) :=
  inferInstanceAs (Membership (String × α) (List (String × α)))

/-- Go map read, `v, ok := m[k]` — the found value, `none` when absent. -/
def GoMap.find? {α : Type} : GoMap α → String → Option α
  | [], _ => none
  | (k, v) :: rest, key => if k = key then some v else GoMap.find? rest key

/-- Go map write `m[k] = v`: replace an existing binding or append a new one. -/
def GoMap.insert {α : Type} : GoMap α → String → α → GoMap α
  | [], key, val => [(key, val)]
  | (k, v) :: rest, key, val =>
      if k = key then (key, val) :: rest else (k, v) :: GoMap.insert rest key val

/-- Go `delete(m, k)`: remove the binding when present, otherwise a no-op. -/
def GoMap.erase {α : Type} : GoMap α → String → GoMap α
  | [], _ => []
  | (k, v) :: rest, key => if k = key then rest else (k, v) :: GoMap.erase rest key

/-! ## Data model -/

/-- The fields of the decoded `variomediaResponse` that the client reads:
`reply.Data.Attributes["status"]`, `reply.Data.Links["queue-job"]` and
`reply.Data.Links["dns-record"]`.  A key missing from the Go map reads as
`""`, so plain strings model the three lookups. -/
structure VReply where
  jobStatus : String
  queueJob : String
  dnsRecord : String
deriving DecidableEq, Repr

/-- One HTTP exchange as seen by `doRequest`: either the transport layer
fails (`client.Do` error, body read error), or a status code arrives with
a body that either parses as a `variomediaResponse` (`some r`) or does not
(`none`, which also covers an empty body). -/
inductive ProviderResp where
  | transportErr
  | http (status : Nat) (body : Option VReply)
deriving DecidableEq, Repr

/-- The error values the Go code can return, kept structural. -/
inductive Err where
  | transport
  | rateLimited
  | rejected (status : Nat)
  | deleteRejected
  | deletePollRejected
  | unmarshal
  | timedOut (lastStatus : String)
  | configInvalid
  | secretNotFound (secretName : String)
  | secretFieldMissing (secretName ns : String)
  | domainNotConfigured (domain : String)
  | wrapZone (zone : String) (e : Err)
  | wrapUpdate (e : Err)
  | wrapDelete (e : Err)
deriving DecidableEq, Repr

/-- The per-issuer configuration blob `ch.Config` after JSON handling:
either it unmarshals to a domain→secret-name map, or unmarshalling fails
leaving whatever partial map the decoder produced. -/
inductive ConfigBlob where
  | parses (cfg : GoMap String)
  | malformed (leftover : GoMap String)
deriving DecidableEq, Repr

/-- The fields of `v1alpha1.ChallengeRequest` that the solver reads. -/
structure Challenge where
  fqdn : String
  zone : String
  key : String
  config : Option ConfigBlob
  resourceNamespace : String
deriving DecidableEq, Repr

/-- The secret store: namespace → secret name → data field → value. -/
def SecretStore : Type := GoMap (GoMap (GoMap String))

instance : DecidableEq SecretStore :=
  inferInstanceAs (DecidableEq (GoMap (GoMap (GoMap String))))

/-- `DnsEntryURL`: domain → entry name → challenge key → record URL. -/
def Cache : Type := GoMap (GoMap (GoMap String))

instance : DecidableEq Cache :=
  inferInstanceAs (DecidableEq (GoMap (GoMap (GoMap String))))

/-- The solver's ambient state: the `DnsEntryURL` global plus the
Kubernetes secret store reachable through `c.client`. -/
structure SolverState where
  cache : Cache
  store : SecretStore
deriving DecidableEq

/-! ## String helpers (Go `strings` package) -/

/-- Go `strings.HasSuffix(s, suffix)`:
`len(s) >= len(suffix) && s[len(s)-len(suffix):] == suffix`. -/
def hasSuffix (s suffix : String) : Bool :=
  decide (suffix.data.length ≤ s.data.length) &&
    (s.data.drop (s.data.length - suffix.data.length) == suffix.data)

/-- Go `strings.TrimSuffix(s, suffix)`. -/
def trimSuffix (s suffix : String) : String :=
  if hasSuffix s suffix then ⟨s.data.take (s.data.length - suffix.data.length)⟩ else s

/-- Go `strings.TrimRight(s, cutset)`: drop trailing characters that are
in the cutset. -/
def trimRight (s : String) (cutset : List Char) : String :=
  ⟨(s.data.reverse.dropWhile (fun c => cutset.contains c)).reverse⟩

/-! ## Provider client (`variomedia.go`) -/

/-- `c.doRequest(req, true)`: consume the next response from the wire.
An exhausted wire behaves like a `client.Do` failure.  Only statuses 200
and 202 have their body read; all other statuses return a nil body. -/
def doRequest (resps : List ProviderResp) :
    Except Err (Nat × Option VReply × List ProviderResp) :=
  match resps with
  | [] => .error .transport
  | .transportErr :: _ => .error .transport
  | .http s b :: rest => .ok (s, (if s = 200 ∨ s = 202 then b else none), rest)

/-- The status interpretation of `UpdateTxtRecord` (identical for the
initial response and for each poll): 429 → rate limited; any status
outside {201, 200, 202} → rejection carrying the status; otherwise
`json.Unmarshal` of the (possibly nil) body. -/
def updateStatusCheck (s : Nat) (b : Option VReply) : Except Err VReply :=
  if s = 429 then .error .rateLimited
  else if s ≠ 201 ∧ s ≠ 200 ∧ s ≠ 202 then .error (.rejected s)
  else match b with
    | none => .error .unmarshal
    | some r => .ok r

/-- The status interpretation of `DeleteTxtRecord`'s poll step: as for
update but with 404 additionally allowed past the status check (the Go
code then still unmarshals the nil 404 body, which fails). -/
def deletePollCheck (s : Nat) (b : Option VReply) : Except Err VReply :=
  if s = 429 then .error .rateLimited
  else if s ≠ 201 ∧ s ≠ 200 ∧ s ≠ 202 ∧ s ≠ 404 then .error .deletePollRejected
  else match b with
    | none => .error .unmarshal
    | some r => .ok r

/-- The body of one `UpdateTxtRecord` loop iteration up to the counter
bookkeeping: when the job is still pending, re-fetch its status via the
queue-job link and re-interpret the response; otherwise keep the reply. -/
def pollStepU (reply : VReply) (resps : List ProviderResp) :
    Except Err (VReply × List ProviderResp) :=
  if reply.jobStatus = "pending" then
    match doRequest resps with
    | .error e => .error e
    | .ok (s, b, rest) =>
      match updateStatusCheck s b with
      | .error e => .error e
      | .ok r => .ok (r, rest)
  else .ok (reply, resps)

/-- The `for` loop of `UpdateTxtRecord`, recursion on `loopcount`:
poll while the job is pending, stop on "done", time out when the
decremented counter reaches zero. -/
def updateLoop : Nat → VReply → List ProviderResp → Except Err String
  | lc, reply, resps =>
    match pollStepU reply resps with
    | .error e => .error e
    | .ok (reply2, resps2) =>
      if reply2.jobStatus = "done" then .ok reply2.dnsRecord
      else match lc with
        | 0 => .error (.timedOut reply2.jobStatus)
        | n + 1 =>
          if n = 0 then .error (.timedOut reply2.jobStatus)
          else updateLoop n reply2 resps2

/-- `c.UpdateTxtRecord(&domain, &name, &value, ttl)` over a wire trace. -/
def UpdateTxtRecord (domain name value : String) (ttl : Nat)
    (resps : List ProviderResp) : Except Err String :=
  match doRequest resps with
  | .error e => .error e
  | .ok (s, b, rest) =>
    match updateStatusCheck s b with
    | .error e => .error e
    | .ok reply => updateLoop 5 reply rest

/-- The body of one `DeleteTxtRecord` loop iteration up to the counter
bookkeeping.  `s0` is the function-scope `status` variable: the `:=`
inside the Go loop body declares fresh variables in the inner block, so
the polled status never reaches the `status != http.StatusNotFound`
guard, the `status == http.StatusNotFound` early return, or later
iterations — they always see the status of the initial DELETE. -/
def pollStepD (s0 : Nat) (reply : VReply) (resps : List ProviderResp) :
    Except Err (VReply × List ProviderResp) :=
  if reply.jobStatus = "pending" ∧ s0 ≠ 404 then
    match doRequest resps with
    | .error e => .error e
    | .ok (s, b, rest) =>
      match deletePollCheck s b with
      | .error e => .error e
      | .ok r => .ok (r, rest)
  else .ok (reply, resps)

/-- The `for` loop of `DeleteTxtRecord`, recursion on `loopcount`, with
the constant function-scope status `s0` threaded unchanged. -/
def deleteLoop : Nat → Nat → VReply → List ProviderResp → Except Err Unit
  | lc, s0, reply, resps =>
    match pollStepD s0 reply resps with
    | .error e => .error e
    | .ok (reply2, resps2) =>
      if s0 = 404 then .ok ()
      else if reply2.jobStatus = "done" then .ok ()
      else match lc with
        | 0 => .error (.timedOut reply2.jobStatus)
        | n + 1 =>
          if n = 0 then .error (.timedOut reply2.jobStatus)
          else deleteLoop n s0 reply2 resps2

/-- `c.DeleteTxtRecord(url, ttl)` over a wire trace.  `client.Do`
deterministically rejects a request whose URL has no scheme or host, so
the empty cached URL fails before anything reaches the wire.  The initial
status check does not exempt 404. -/
def DeleteTxtRecord (url : String) (ttl : Nat)
    (resps : List ProviderResp) : Except Err Unit :=
  if url = "" then .error .transport
  else match doRequest resps with
  | .error e => .error e
  | .ok (s, b, rest) =>
    if s = 429 then .error .rateLimited
    else if s ≠ 201 ∧ s ≠ 200 ∧ s ≠ 202 then .error .deleteRejected
    else match b with
      | none => .error .unmarshal
      | some reply => deleteLoop 5 s reply rest

/-! ## Solver (`main.go`) -/

/-- `loadConfig(cfgJSON)`: a nil blob yields the empty map with no error;
a malformed blob yields the decoder's partial map plus an error. -/
def loadConfig : Option ConfigBlob → GoMap String × Option Err
  | none => ([], none)
  | some (.parses cfg) => (cfg, none)
  | some (.malformed leftover) => (leftover, some .configInvalid)

/-- `c.client.CoreV1().Secrets(namespace).Get(..., secretName, ...)`. -/
def lookupSecret (store : SecretStore) (ns secretName : String) :
    Option (GoMap String) :=
  ((store.find? ns).getD []).find? secretName

/-- The `for domain, secretName := range cfg` loop of `loadApiKeys`:
each secret name in the config map is replaced in place by the trimmed
`api-token` field of the named secret; any failure aborts with a nil map. -/
def loadApiKeysLoop (store : SecretStore) (ns : String) :
    GoMap String → List (String × String) → Option (GoMap String) × Option Err
  | cfg, [] => (some cfg, none)
  | cfg, (domain, secretName) :: rest =>
    match lookupSecret store ns secretName with
    | none => (none, some (.secretNotFound secretName))
    | some sec =>
      match sec.find? "api-token" with
      | none => (none, some (.secretFieldMissing secretName ns))
      | some v =>
          loadApiKeysLoop store ns
            (cfg.insert domain (trimRight v ['\r', '\n', ' '])) rest

/-- `c.loadApiKeys(cfgJSON, namespace)`.  The pair mirrors Go's
`(customDNSProviderConfig, error)` return, with `none` for a nil map. -/
def loadApiKeys (cfgJSON : Option ConfigBlob) (store : SecretStore)
    (ns : String) : Option (GoMap String) × Option Err :=
  match loadConfig cfgJSON with
  | (cfg, some e) => (some cfg, some e)
  | (cfg, none) => loadApiKeysLoop store ns cfg cfg

/-- The `(entry, domain, apiKey, error)` quadruple returned by
`getDomainAndEntryAndApiKey`. -/
structure MapResult where
  entry : String
  domain : String
  apiKey : String
  err : Option Err
deriving DecidableEq, Repr

/-- `c.getDomainAndEntryAndApiKey(ch, &cfg)`. -/
def getDomainAndEntryAndApiKey (fqdn zone : String) (cfg : GoMap String) :
    MapResult :=
  let entry := trimSuffix (trimSuffix fqdn zone) "."
  let domain := trimSuffix zone "."
  match cfg.find? domain with
  | none =>
      { entry := entry, domain := domain, apiKey := ""
        err := some (.domainNotConfigured domain) }
  | some apiKey =>
      { entry := entry, domain := domain, apiKey := apiKey, err := none }

/-- `DnsEntryURL[domain][entry][key]`: chained Go map reads, each missing
level reading as the zero value (nil map, then empty string). -/
def cacheGet (c : Cache) (domain entry key : String) : String :=
  (((((c.find? domain).getD []).find? entry).getD []).find? key).getD ""

/-- The cache update in `Present`: make each level exist, then assign. -/
def cachePut (c : Cache) (domain entry key url : String) : Cache :=
  let m1 := (c.find? domain).getD []
  let m2 := (m1.find? entry).getD []
  c.insert domain (m1.insert entry (m2.insert key url))

/-- `delete(DnsEntryURL[domain][entry], ch.Key)` in `CleanUp`: Go's
`delete` on a nil map (either intermediate level missing) is a no-op. -/
def cacheDelete (c : Cache) (domain entry key : String) : Cache :=
  match c.find? domain with
  | none => c
  | some m1 =>
    match m1.find? entry with
    | none => c
    | some m2 => c.insert domain (m1.insert entry (m2.erase key))

/-- `Present(ch)` over a wire trace: load keys, map the challenge,
create/update the record, store the record URL in the cache. -/
def Present (st : SolverState) (ch : Challenge) (resps : List ProviderResp) :
    SolverState × Option Err :=
  match loadApiKeys ch.config st.store ch.resourceNamespace with
  | (_, some e) => (st, some e)
  | (cfgOpt, none) =>
    match getDomainAndEntryAndApiKey ch.fqdn ch.zone (cfgOpt.getD []) with
    | m =>
      match m.err with
      | some e => (st, some (.wrapZone ch.zone e))
      | none =>
        match UpdateTxtRecord m.domain m.entry ch.key 300 resps with
        | .error e => (st, some (.wrapUpdate e))
        | .ok url =>
            ({ st with cache := cachePut st.cache m.domain m.entry ch.key url },
              none)

/-- `CleanUp(ch)` over a wire trace: load keys, map the challenge, read
the cached URL (possibly `""`), delete the record, clear the cache entry. -/
def CleanUp (st : SolverState) (ch : Challenge) (resps : List ProviderResp) :
    SolverState × Option Err :=
  match loadApiKeys ch.config st.store ch.resourceNamespace with
  | (_, some e) => (st, some e)
  | (cfgOpt, none) =>
    match getDomainAndEntryAndApiKey ch.fqdn ch.zone (cfgOpt.getD []) with
    | m =>
      match m.err with
      | some e => (st, some (.wrapZone ch.zone e))
      | none =>
        match DeleteTxtRecord (cacheGet st.cache m.domain m.entry ch.key) 300
            resps with
        | .error e => (st, some (.wrapDelete e))
        | .ok _ =>
            ({ st with cache := cacheDelete st.cache m.domain m.entry ch.key },
              none)

/-! ## Spec-side definitions for refinement comparison -/

/-- The spec's words "with the trailing dot removed", stated directly:
drop the last character when it is a dot, else leave the string alone. -/
def specStripTrailingDot (s : String) : String :=
  if s.data.getLast? = some '.' then ⟨s.data.dropLast⟩ else s

/-- A provider response that reports a still-pending job with a readable
body: status 200 or 202 and decoded job status "pending". -/
def isPendingOk : ProviderResp → Bool
  | .http s (some rep) => (s == 200 || s == 202) && rep.jobStatus == "pending"
  | _ => false

/-! ## Helper lemmas -/

theorem hasSuffix_append (pre zone : String) :
    hasSuffix ⟨pre.data ++ zone.data⟩ zone = true := by
  have h : pre.data.length + zone.data.length - zone.data.length =
      pre.data.length := by omega
  simp only [hasSuffix, List.length_append, h, Bool.and_eq_true,
    decide_eq_true_eq, beq_iff_eq]
  exact ⟨by omega, List.drop_left pre.data zone.data⟩

theorem trimSuffix_append (pre zone : String) :
    trimSuffix ⟨pre.data ++ zone.data⟩ zone = pre := by
  have h : pre.data.length + zone.data.length - zone.data.length =
      pre.data.length := by omega
  unfold trimSuffix
  rw [hasSuffix_append]
  simp only [if_true, List.length_append, h, List.take_left]

/-- Go's `TrimSuffix(s, ".")` coincides with the spec's "with the
trailing dot removed". -/
theorem trimSuffix_dot (s : String) : trimSuffix s "." = specStripTrailingDot s := by
  obtain ⟨l⟩ := s
  rcases List.eq_nil_or_concat l with rfl | ⟨l', c, rfl⟩
  · simp [trimSuffix, hasSuffix, specStripTrailingDot]
  · have hlen : (l' ++ [c]).length - 1 = l'.length := by simp
    have hdrop : (l' ++ [c]).drop l'.length = [c] := List.drop_left l' [c]
    by_cases hc : c = '.'
    · subst hc
      simp [trimSuffix, hasSuffix, specStripTrailingDot, hlen, hdrop,
        List.take_left, List.dropLast_concat, List.getLast?_concat]
    · simp [trimSuffix, hasSuffix, specStripTrailingDot, hlen, hdrop, hc,
        List.getLast?_concat]

/-! ## Claim C7 — challenge mapper -/

/-- C7: for every dot-terminated pair (fqdn, resolvedZone) with
resolvedZone a suffix of fqdn (written fqdn = pre ++ resolvedZone), the
mapper returns domain = resolvedZone minus its trailing dot and
hostLabel = pre minus its trailing dot (empty for the apex case
pre = ""), and it errors with domain-not-configured exactly when the
computed domain is absent from the credential table. -/
theorem mapper_computes_domain_and_label (pre zone : String) (cfg : GoMap String)
    (hz : zone.data.getLast? = some '.') :
    getDomainAndEntryAndApiKey ⟨pre.data ++ zone.data⟩ zone cfg =
      { entry := specStripTrailingDot pre
        domain := specStripTrailingDot zone
        apiKey := (cfg.find? (specStripTrailingDot zone)).getD ""
        err := if (cfg.find? (specStripTrailingDot zone)).isSome then none
               else some (.domainNotConfigured (specStripTrailingDot zone)) } := by
  unfold getDomainAndEntryAndApiKey
  rw [trimSuffix_append, trimSuffix_dot, trimSuffix_dot]
  cases h : cfg.find? (specStripTrailingDot zone) <;> simp [h]

/-- Witness for C7 at a concrete challenge, including the claimed values. -/
theorem mapper_computes_domain_and_label_witness :
    getDomainAndEntryAndApiKey
        ⟨("_acme-challenge.foo.").data ++ ("example.com.").data⟩ "example.com."
        [("example.com", "KEY")] =
      { entry := "_acme-challenge.foo", domain := "example.com"
        apiKey := "KEY", err := none } :=
  (mapper_computes_domain_and_label "_acme-challenge.foo." "example.com."
    [("example.com", "KEY")] (by decide)).trans (by decide)

/-! ## Claim C9 — total cache access in CleanUp -/

/-- C9: chained cache reads return `""` whenever any level is absent, and
the cache delete is a no-op whenever an intermediate map is missing. -/
theorem cache_access_total (c : Cache) (d e k : String) :
    ((c.find? d = none ∨ ((c.find? d).getD []).find? e = none ∨
        ((((c.find? d).getD []).find? e).getD []).find? k = none) →
      cacheGet c d e k = "") ∧
    ((c.find? d = none ∨ ((c.find? d).getD []).find? e = none) →
      cacheDelete c d e k = c) := by
  constructor
  · rintro (h | h | h) <;> simp [cacheGet, h, GoMap.find?]
  · rintro (h | h)
    · simp [cacheDelete, h]
    · cases hd : c.find? d with
      | none => simp [cacheDelete, hd]
      | some m1 =>
          rw [hd] at h
          simp only [Option.getD_some] at h
          simp [cacheDelete, hd, h]

/-- Witness for C9: the empty cache. -/
theorem cache_access_total_witness :
    cacheGet [] "d" "e" "k" = "" ∧ cacheDelete [] "d" "e" "k" = ([] : Cache) :=
  ⟨(cache_access_total [] "d" "e" "k").1 (Or.inl rfl),
   (cache_access_total [] "d" "e" "k").2 (Or.inl rfl)⟩

/-! ## Claim C10 — nil configuration blob -/

/-- C10: a nil configuration blob loads as the empty map with no error,
and Present / CleanUp on any challenge then fail at the challenge-mapping
step with the domain-not-configured error (wrapped with the zone), not
with a configuration-decoding error. -/
theorem nil_config_maps_to_domain_not_configured (st : SolverState)
    (ch : Challenge) (resps : List ProviderResp) (hc : ch.config = none) :
    loadConfig ch.config = ([], none) ∧
    (Present st ch resps).2 =
      some (.wrapZone ch.zone (.domainNotConfigured (trimSuffix ch.zone "."))) ∧
    (CleanUp st ch resps).2 =
      some (.wrapZone ch.zone (.domainNotConfigured (trimSuffix ch.zone "."))) := by
  refine ⟨by rw [hc]; rfl, ?_, ?_⟩ <;>
    simp [Present, CleanUp, loadApiKeys, loadConfig, loadApiKeysLoop,
      getDomainAndEntryAndApiKey, GoMap.find?, hc]

/-- Witness for C10 at a concrete challenge. -/
theorem nil_config_maps_to_domain_not_configured_witness :
    (Present ⟨[], []⟩ ⟨"x.d.", "d.", "k", none, "ns"⟩ []).2 =
      some (.wrapZone "d." (.domainNotConfigured "d")) :=
  ((nil_config_maps_to_domain_not_configured ⟨[], []⟩
    ⟨"x.d.", "d.", "k", none, "ns"⟩ [] rfl).2.1).trans (by decide)

/-! ## Claim C1 — HTTP 404 during delete (code bug) -/

/-- C1 evaluated on the code: a 404 to the initial DELETE is rejected by
the accepted-status check (the Go error "failed deleting TXT record"),
and a 404 at the first poll step fails the JSON unmarshal of the unread
body — in neither case does `DeleteTxtRecord` return success, although
the code's own comment says a 404 means the record is gone and is fine.
The `status == http.StatusNotFound → return nil` branch is unreachable
because the initial check already excluded 404 and the polled status
shadows, rather than updates, the function-scope `status` variable. -/
theorem delete_404_returns_error :
    DeleteTxtRecord "http://rec" 300 [.http 404 none] = .error .deleteRejected ∧
    DeleteTxtRecord "http://rec" 300
        [.http 202 (some ⟨"pending", "http://job", ""⟩), .http 404 none] =
      .error .unmarshal := ⟨rfl, rfl⟩

/-! ## Claim C6 — credential resolution failure drops the map -/

/-- Counterexample to C6 as stated: with one configured domain whose
secret is absent from the store, `loadApiKeys` does fail as a whole, but
it returns the nil map (`none`), not the map built so far. -/
theorem loadApiKeys_failure_returns_nil_map :
    (loadApiKeys (some (.parses [("example.com", "sec")])) [] "ns").2 =
      some (.secretNotFound "sec") ∧
    (loadApiKeys (some (.parses [("example.com", "sec")])) [] "ns").1 = none :=
  ⟨rfl, rfl⟩

/-- `true` iff the named secret resolves: it exists in the namespace and
carries an `api-token` field. -/
def secretResolves (store : SecretStore) (ns secretName : String) : Bool :=
  match lookupSecret store ns secretName with
  | none => false
  | some sec => (sec.find? "api-token").isSome

theorem loadApiKeysLoop_failure (store : SecretStore) (ns : String) :
    ∀ (entries : List (String × String)) (acc : GoMap String),
      (∃ p ∈ entries, secretResolves store ns p.2 = false) →
      (loadApiKeysLoop store ns acc entries).1 = none ∧
      (loadApiKeysLoop store ns acc entries).2.isSome := by
  intro entries
  induction entries with
  | nil => rintro acc ⟨p, hp, _⟩; exact absurd hp (List.not_mem_nil p)
  | cons head rest ih =>
      rintro acc ⟨p, hp, hbad⟩
      obtain ⟨d, s⟩ := head
      cases hsec : lookupSecret store ns s with
      | none => simp [loadApiKeysLoop, hsec]
      | some sec =>
          cases hfield : sec.find? "api-token" with
          | none => simp [loadApiKeysLoop, hsec, hfield]
          | some v =>
              have hnotHead : p ∈ rest := by
                rcases List.mem_cons.mp hp with rfl | h
                · simp [secretResolves, hsec, hfield] at hbad
                · exact h
              simp only [loadApiKeysLoop, hsec, hfield]
              exact ih _ ⟨p, hnotHead, hbad⟩

/-- C6 amended: if any configured domain's secret fails to resolve,
credential resolution fails as a whole, and the nil map — not the map
built so far — is returned alongside the error. -/
theorem loadApiKeys_no_partial_result (blob : Option ConfigBlob)
    (store : SecretStore) (ns : String) (cfg : GoMap String)
    (hparse : loadConfig blob = (cfg, none))
    (hfail : ∃ p ∈ cfg, secretResolves store ns p.2 = false) :
    (loadApiKeys blob store ns).1 = none ∧
    (loadApiKeys blob store ns).2.isSome := by
  unfold loadApiKeys
  rw [hparse]
  exact loadApiKeysLoop_failure store ns cfg cfg hfail

/-- Witness for the amended C6 at a concrete configuration. -/
theorem loadApiKeys_no_partial_result_witness :
    (loadApiKeys (some (.parses [("a", "secA"), ("b", "secB")]))
        [("ns", [("secA", [("api-token", "k1")])])] "ns").1 = none ∧
    (loadApiKeys (some (.parses [("a", "secA"), ("b", "secB")]))
        [("ns", [("secA", [("api-token", "k1")])])] "ns").2.isSome :=
  loadApiKeys_no_partial_result (some (.parses [("a", "secA"), ("b", "secB")]))
    [("ns", [("secA", [("api-token", "k1")])])] "ns"
    [("a", "secA"), ("b", "secB")] rfl
    ⟨("b", "secB"), List.mem_cons_of_mem _ (List.mem_cons_self _ _), by decide⟩

/-! ## Claim C2 — CleanUp idempotence -/

/-- A state whose cache holds the record URL for the challenge below and
whose store resolves the configured secret. -/
def stC2 : SolverState :=
  ⟨[("d", [("x", [("k", "http://rec")])])],
   [("ns", [("s", [("api-token", "key1")])])]⟩

/-- A well-formed challenge for domain `d`, entry `x`, key `k`. -/
def chC2 : Challenge := ⟨"x.d.", "d.", "k", some (.parses [("d", "s")]), "ns"⟩

/-- A provider run whose delete job is already done on the first reply. -/
def respsDone : List ProviderResp := [.http 200 (some ⟨"done", "", ""⟩)]

/-- Counterexample to C2 as stated: the first CleanUp succeeds and clears
the cache entry; the second identical CleanUp finds no cached URL, issues
the delete against the empty URL, and returns an error instead of
treating the record as already deleted. -/
theorem cleanup_not_idempotent :
    (CleanUp stC2 chC2 respsDone).2 = none ∧
    (CleanUp (CleanUp stC2 chC2 respsDone).1 chC2 respsDone).2 =
      some (.wrapDelete .transport) ∧
    some (Err.wrapDelete .transport) ≠ none :=
  ⟨rfl, rfl, fun h => Option.noConfusion h⟩

/-- C2 amended: CleanUp is not idempotent — whenever the cache holds no
URL for the challenge's (domain, hostLabel, key), CleanUp still issues
the delete against the empty URL, which the HTTP layer rejects, so the
call returns the wrapped transport error rather than success; in
particular a second identical CleanUp after a successful one errors. -/
theorem cleanup_cache_miss_errors (st : SolverState) (ch : Challenge)
    (resps : List ProviderResp) (cfg : GoMap String)
    (hload : loadApiKeys ch.config st.store ch.resourceNamespace =
      (some cfg, none))
    (hmap : (getDomainAndEntryAndApiKey ch.fqdn ch.zone cfg).err = none)
    (hmiss : cacheGet st.cache
        (getDomainAndEntryAndApiKey ch.fqdn ch.zone cfg).domain
        (getDomainAndEntryAndApiKey ch.fqdn ch.zone cfg).entry ch.key = "") :
    (CleanUp st ch resps).2 = some (.wrapDelete .transport) := by
  unfold CleanUp
  rw [hload]
  dsimp only [Option.getD_some]
  rw [hmap, hmiss]
  rfl

/-- Witness for the amended C2: the second call of the counterexample
scenario, applied through the amended theorem. -/
theorem cleanup_cache_miss_errors_witness :
    (CleanUp ⟨[("d", [("x", [])])], stC2.store⟩ chC2 respsDone).2 =
      some (.wrapDelete .transport) :=
  cleanup_cache_miss_errors ⟨[("d", [("x", [])])], stC2.store⟩ chC2 respsDone
    [("d", "key1")] rfl rfl rfl


/-! ## Loop lemmas -/

/-- One-step unfolding of `updateLoop`, stated as an equation so proofs
can rewrite with it for an arbitrary counter value. -/
theorem updateLoop_eq (lc : Nat) (reply : VReply) (resps : List ProviderResp) :
    updateLoop lc reply resps =
      match pollStepU reply resps with
      | .error e => .error e
      | .ok (reply2, resps2) =>
        if reply2.jobStatus = "done" then .ok reply2.dnsRecord
        else match lc with
          | 0 => .error (.timedOut reply2.jobStatus)
          | n + 1 =>
            if n = 0 then .error (.timedOut reply2.jobStatus)
            else updateLoop n reply2 resps2 := by
  rcases lc with _ | n <;> rw [updateLoop]

/-- One-step unfolding of `deleteLoop`. -/
theorem deleteLoop_eq (lc s0 : Nat) (reply : VReply)
    (resps : List ProviderResp) :
    deleteLoop lc s0 reply resps =
      match pollStepD s0 reply resps with
      | .error e => .error e
      | .ok (reply2, resps2) =>
        if s0 = 404 then .ok ()
        else if reply2.jobStatus = "done" then .ok ()
        else match lc with
          | 0 => .error (.timedOut reply2.jobStatus)
          | n + 1 =>
            if n = 0 then .error (.timedOut reply2.jobStatus)
            else deleteLoop n s0 reply2 resps2 := by
  rcases lc with _ | n <;> rw [deleteLoop]

theorem doRequest_error (resps : List ProviderResp) (e : Err)
    (h : doRequest resps = .error e) : e = .transport := by
  cases resps with
  | nil => simpa [doRequest] using h.symm
  | cons r rest =>
      cases r with
      | transportErr => simpa [doRequest] using h.symm
      | http s b => simp [doRequest] at h

theorem updateStatusCheck_rejected (s : Nat) (b : Option VReply) (n : Nat)
    (h : updateStatusCheck s b = .error (.rejected n)) :
    n ≠ 201 ∧ n ≠ 200 ∧ n ≠ 202 := by
  unfold updateStatusCheck at h
  by_cases h429 : s = 429
  · simp [h429] at h
  · rw [if_neg h429] at h
    by_cases hacc : s ≠ 201 ∧ s ≠ 200 ∧ s ≠ 202
    · rw [if_pos hacc] at h
      simp only [Except.error.injEq, Err.rejected.injEq] at h
      exact h ▸ hacc
    · rw [if_neg hacc] at h
      cases b <;> simp at h

theorem pollStepU_rejected (reply : VReply) (resps : List ProviderResp) (n : Nat)
    (h : pollStepU reply resps = .error (.rejected n)) :
    n ≠ 201 ∧ n ≠ 200 ∧ n ≠ 202 := by
  unfold pollStepU at h
  split at h
  · cases hdq : doRequest resps with
    | error e =>
        rw [hdq] at h
        dsimp only at h
        simp only [Except.error.injEq] at h
        exact absurd (doRequest_error resps e hdq) (by rw [h]; simp)
    | ok t =>
        obtain ⟨s, b, rest⟩ := t
        rw [hdq] at h
        dsimp only at h
        cases hchk : updateStatusCheck s b with
        | error e =>
            rw [hchk] at h
            dsimp only at h
            simp only [Except.error.injEq] at h
            exact updateStatusCheck_rejected s b n (h ▸ hchk)
        | ok r => rw [hchk] at h; dsimp only at h; simp at h
  · simp at h
theorem updateLoop_rejected : ∀ (lc : Nat) (reply : VReply)
    (resps : List ProviderResp) (n : Nat),
    updateLoop lc reply resps = .error (.rejected n) →
    n ≠ 201 ∧ n ≠ 200 ∧ n ≠ 202 := by
  intro lc
  induction lc using Nat.strong_induction_on with
  | _ lc ih =>
    intro reply resps n h
    rw [updateLoop_eq] at h
    cases hps : pollStepU reply resps with
    | error e =>
        rw [hps] at h
        dsimp only at h
        simp only [Except.error.injEq] at h
        exact pollStepU_rejected reply resps n (h ▸ hps)
    | ok t =>
        obtain ⟨reply2, resps2⟩ := t
        rw [hps] at h
        dsimp only at h
        by_cases hdone : reply2.jobStatus = "done"
        · simp [hdone] at h
        · rw [if_neg hdone] at h
          cases lc with
          | zero => simp at h
          | succ m =>
              dsimp only at h
              by_cases hm : m = 0
              · rw [if_pos hm] at h; simp at h
              · rw [if_neg hm] at h
                exact ih m (by omega) reply2 resps2 n h

/-! ## Claim C3 — accepted statuses are not provider-rejected -/

/-- C3: a provider-rejected failure from `UpdateTxtRecord` only ever
carries a status outside the accepted set {201, 200, 202}; and for an
accepted response whose body decodes with job status "done", the record
URL is returned.  (A 201 body is never read by `doRequest`, so the decode
step then sees no data and fails with the unmarshal error — still not a
provider-rejected failure.) -/
theorem update_accepted_not_rejected :
    (∀ (d nm v : String) (ttl : Nat) (resps : List ProviderResp) (s : Nat),
        UpdateTxtRecord d nm v ttl resps = .error (.rejected s) →
        s ≠ 201 ∧ s ≠ 200 ∧ s ≠ 202) ∧
    (∀ (d nm v : String) (ttl : Nat) (s : Nat) (r : VReply)
        (rest : List ProviderResp), (s = 200 ∨ s = 202) →
        r.jobStatus = "done" →
        UpdateTxtRecord d nm v ttl (.http s (some r) :: rest) =
          .ok r.dnsRecord) := by
  constructor
  · intro d nm v ttl resps s h
    unfold UpdateTxtRecord at h
    cases hdq : doRequest resps with
    | error e =>
        rw [hdq] at h
        dsimp only at h
        simp only [Except.error.injEq] at h
        exact absurd (doRequest_error resps e hdq) (by rw [h]; simp)
    | ok t =>
        obtain ⟨st, b, rest⟩ := t
        rw [hdq] at h
        dsimp only at h
        cases hchk : updateStatusCheck st b with
        | error e =>
            rw [hchk] at h
            dsimp only at h
            simp only [Except.error.injEq] at h
            exact updateStatusCheck_rejected st b s (h ▸ hchk)
        | ok reply =>
            rw [hchk] at h
            dsimp only at h
            exact updateLoop_rejected 5 reply rest s h
  · intro d nm v ttl s r rest hs hdone
    unfold UpdateTxtRecord
    have hdq : doRequest (.http s (some r) :: rest) = .ok (s, some r, rest) := by
      rcases hs with rfl | rfl <;> simp [doRequest]
    rw [hdq]
    have hchk : updateStatusCheck s (some r) = .ok r := by
      rcases hs with rfl | rfl <;> simp [updateStatusCheck]
    dsimp only
    rw [hchk]
    dsimp only
    rw [updateLoop_eq]
    simp [pollStepU, hdone]

/-- Witness for C3 at a concrete accepted, already-done response. -/
theorem update_accepted_not_rejected_witness :
    UpdateTxtRecord "d" "e" "k" 300
        [.http 200 (some ⟨"done", "", "http://rec"⟩)] =
      .ok (VReply.mk "done" "" "http://rec").dnsRecord :=
  update_accepted_not_rejected.2 "d" "e" "k" 300 200 ⟨"done", "", "http://rec"⟩
    [] (Or.inl rfl) rfl

theorem isPendingOk_spec (r : ProviderResp) (h : isPendingOk r = true) :
    ∃ s rep, r = .http s (some rep) ∧ (s = 200 ∨ s = 202) ∧
      rep.jobStatus = "pending" := by
  cases r with
  | transportErr => simp [isPendingOk] at h
  | http s b =>
      cases b with
      | none => simp [isPendingOk] at h
      | some rep =>
          simp only [isPendingOk, Bool.and_eq_true, Bool.or_eq_true,
            beq_iff_eq] at h
          exact ⟨s, rep, rfl, h.1, h.2⟩

theorem pollStepU_ok_of_pendingOk (reply : VReply)
    (hrp : reply.jobStatus = "pending") (s : Nat) (rep : VReply)
    (rest : List ProviderResp) (hs : s = 200 ∨ s = 202) :
    pollStepU reply (.http s (some rep) :: rest) = .ok (rep, rest) := by
  rcases hs with rfl | rfl <;>
    simp [pollStepU, hrp, doRequest, updateStatusCheck]

theorem updateLoop_take : ∀ (lc : Nat), 1 ≤ lc →
    ∀ (reply : VReply) (resps : List ProviderResp),
    updateLoop lc reply resps = updateLoop lc reply (resps.take lc) := by
  intro lc
  induction lc using Nat.strong_induction_on with
  | _ lc ih =>
    intro hlc reply resps
    by_cases hrp : reply.jobStatus = "pending"
    · cases resps with
      | nil => rw [List.take_nil]
      | cons r rest =>
          obtain ⟨m, rfl⟩ : ∃ m, lc = m + 1 := ⟨lc - 1, by omega⟩
          rw [List.take_succ_cons]
          rw [updateLoop_eq, updateLoop_eq]
          cases r with
          | transportErr => simp [pollStepU, hrp, doRequest]
          | http s b =>
              have hd1 : doRequest (.http s b :: rest) =
                  .ok (s, (if s = 200 ∨ s = 202 then b else none), rest) := rfl
              have hd2 : doRequest (.http s b :: rest.take m) =
                  .ok (s, (if s = 200 ∨ s = 202 then b else none),
                    rest.take m) := rfl
              simp only [pollStepU, hrp, if_pos, hd1, hd2]
              cases hchk : updateStatusCheck s
                  (if s = 200 ∨ s = 202 then b else none) with
              | error e => rfl
              | ok rep =>
                  dsimp only
                  by_cases hdone : rep.jobStatus = "done"
                  · simp [hdone]
                  · rw [if_neg hdone, if_neg hdone]
                    cases m with
                    | zero => rfl
                    | succ m' =>
                        by_cases hm : m' + 1 = 0
                        · omega
                        · rw [if_neg hm, if_neg hm]
                          exact ih (m' + 1) (by omega) (by omega) rep rest
    · rw [updateLoop_eq, updateLoop_eq]
      have hp1 : pollStepU reply resps = .ok (reply, resps) := by
        simp [pollStepU, hrp]
      have hp2 : pollStepU reply (resps.take lc) = .ok (reply, resps.take lc) := by
        simp [pollStepU, hrp]
      rw [hp1, hp2]
      dsimp only
      by_cases hdone : reply.jobStatus = "done"
      · simp [hdone]
      · rw [if_neg hdone, if_neg hdone]
        cases lc with
        | zero => rfl
        | succ m =>
            dsimp only
            by_cases hm : m = 0
            · rw [if_pos hm, if_pos hm]
            · rw [if_neg hm, if_neg hm]
              rw [ih m (by omega) (by omega) reply resps,
                ih m (by omega) (by omega) reply (resps.take (m + 1)),
                List.take_take]
              have : min m (m + 1) = m := by omega
              rw [this]

theorem updateLoop_all_pending : ∀ (lc : Nat), 1 ≤ lc →
    ∀ (reply : VReply) (resps : List ProviderResp),
    reply.jobStatus = "pending" → (∀ r ∈ resps, isPendingOk r = true) →
    lc ≤ resps.length →
    updateLoop lc reply resps = .error (.timedOut "pending") := by
  intro lc
  induction lc using Nat.strong_induction_on with
  | _ lc ih =>
    intro hlc reply resps hrp hall hlen
    cases resps with
    | nil => simp at hlen; omega
    | cons r rest =>
        obtain ⟨s, rep, rfl, hs, hpend⟩ :=
          isPendingOk_spec r (hall r (List.mem_cons_self r rest))
        rw [updateLoop_eq]
        rw [pollStepU_ok_of_pendingOk reply hrp s rep rest hs]
        dsimp only
        rw [hpend]
        rw [if_neg (by decide : ¬("pending" : String) = "done")]
        cases lc with
        | zero => rfl
        | succ m =>
            dsimp only
            by_cases hm : m = 0
            · rw [if_pos hm]
            · rw [if_neg hm]
              refine ih m (by omega) (by omega) rep rest hpend
                (fun x hx => hall x (List.mem_cons_of_mem _ hx)) ?_
              simp at hlen
              omega

/-! ## Claim C4 — the poll loop is bounded -/

/-- C4: `UpdateTxtRecord` depends on at most the first six responses (the
initial one plus at most five status re-fetches), and a provider that
reports "pending" on every response makes it fail with the timed-out
error carrying the last observed status "pending". -/
theorem update_poll_bounded :
    (∀ (d nm v : String) (ttl : Nat) (resps : List ProviderResp),
        UpdateTxtRecord d nm v ttl resps =
          UpdateTxtRecord d nm v ttl (resps.take 6)) ∧
    (∀ (d nm v : String) (ttl : Nat) (resps : List ProviderResp),
        (∀ r ∈ resps, isPendingOk r = true) → 6 ≤ resps.length →
        UpdateTxtRecord d nm v ttl resps = .error (.timedOut "pending")) := by
  constructor
  · intro d nm v ttl resps
    cases resps with
    | nil => rfl
    | cons r rest =>
        rw [show (r :: rest).take 6 = r :: rest.take 5 from rfl]
        unfold UpdateTxtRecord
        cases r with
        | transportErr => rfl
        | http s b =>
            have hd1 : doRequest (.http s b :: rest) =
                .ok (s, (if s = 200 ∨ s = 202 then b else none), rest) := rfl
            have hd2 : doRequest (.http s b :: rest.take 5) =
                .ok (s, (if s = 200 ∨ s = 202 then b else none),
                  rest.take 5) := rfl
            rw [hd1, hd2]
            dsimp only
            cases hchk : updateStatusCheck s
                (if s = 200 ∨ s = 202 then b else none) with
            | error e => rfl
            | ok reply => exact updateLoop_take 5 (by omega) reply rest
  · intro d nm v ttl resps hall hlen
    cases resps with
    | nil => simp at hlen
    | cons r rest =>
        obtain ⟨s, rep, rfl, hs, hpend⟩ :=
          isPendingOk_spec r (hall r (List.mem_cons_self r rest))
        unfold UpdateTxtRecord
        have hdq : doRequest (.http s (some rep) :: rest) =
            .ok (s, some rep, rest) := by
          rcases hs with rfl | rfl <;> simp [doRequest]
        rw [hdq]
        have hchk : updateStatusCheck s (some rep) = .ok rep := by
          rcases hs with rfl | rfl <;> simp [updateStatusCheck]
        dsimp only
        rw [hchk]
        refine updateLoop_all_pending 5 (by omega) rep rest hpend
          (fun x hx => hall x (List.mem_cons_of_mem _ hx)) ?_
        simp at hlen
        omega

/-- Witness for C4: a provider that reports "pending" eight times. -/
theorem update_poll_bounded_witness :
    (UpdateTxtRecord "d" "e" "k" 300
        (List.replicate 8 (.http 200 (some ⟨"pending", "j", ""⟩))) =
      UpdateTxtRecord "d" "e" "k" 300
        ((List.replicate 8 (.http 200 (some ⟨"pending", "j", ""⟩))).take 6)) ∧
    UpdateTxtRecord "d" "e" "k" 300
        (List.replicate 8 (.http 200 (some ⟨"pending", "j", ""⟩))) =
      .error (.timedOut "pending") :=
  ⟨update_poll_bounded.1 "d" "e" "k" 300 _,
   update_poll_bounded.2 "d" "e" "k" 300 _ (by decide) (by decide)⟩

theorem pollStepD_ok_of_pendingOk (s0 : Nat) (hs0 : s0 ≠ 404) (reply : VReply)
    (hrp : reply.jobStatus = "pending") (s : Nat) (rep : VReply)
    (rest : List ProviderResp) (hs : s = 200 ∨ s = 202) :
    pollStepD s0 reply (.http s (some rep) :: rest) = .ok (rep, rest) := by
  rcases hs with rfl | rfl <;>
    simp [pollStepD, hrp, hs0, doRequest, deletePollCheck]

theorem updateLoop_429 : ∀ (pre : List ProviderResp) (lc : Nat) (reply : VReply)
    (b : Option VReply) (rest : List ProviderResp),
    reply.jobStatus = "pending" → (∀ r ∈ pre, isPendingOk r = true) →
    pre.length + 1 ≤ lc →
    updateLoop lc reply (pre ++ .http 429 b :: rest) = .error .rateLimited := by
  intro pre
  induction pre with
  | nil =>
      intro lc reply b rest hrp _ hlen
      rw [List.nil_append, updateLoop_eq]
      simp [pollStepU, hrp, doRequest, updateStatusCheck]
  | cons p pre' ih =>
      intro lc reply b rest hrp hall hlen
      obtain ⟨s, rep, rfl, hs, hpend⟩ :=
        isPendingOk_spec p (hall p (List.mem_cons_self _ _))
      rw [List.cons_append, updateLoop_eq]
      rw [pollStepU_ok_of_pendingOk reply hrp s rep _ hs]
      dsimp only
      rw [hpend, if_neg (by decide : ¬("pending" : String) = "done")]
      obtain ⟨m, rfl⟩ : ∃ m, lc = m + 1 := ⟨lc - 1, by omega⟩
      dsimp only
      have hm : ¬m = 0 := by simp at hlen; omega
      rw [if_neg hm]
      exact ih m rep b rest hpend
        (fun x hx => hall x (List.mem_cons_of_mem _ hx))
        (by simp at hlen ⊢; omega)

theorem deleteLoop_429 : ∀ (pre : List ProviderResp) (lc s0 : Nat)
    (reply : VReply) (b : Option VReply) (rest : List ProviderResp),
    s0 ≠ 404 → reply.jobStatus = "pending" →
    (∀ r ∈ pre, isPendingOk r = true) → pre.length + 1 ≤ lc →
    deleteLoop lc s0 reply (pre ++ .http 429 b :: rest) =
      .error .rateLimited := by
  intro pre
  induction pre with
  | nil =>
      intro lc s0 reply b rest hs0 hrp _ hlen
      rw [List.nil_append, deleteLoop_eq]
      simp [pollStepD, hrp, hs0, doRequest, deletePollCheck]
  | cons p pre' ih =>
      intro lc s0 reply b rest hs0 hrp hall hlen
      obtain ⟨s, rep, rfl, hs, hpend⟩ :=
        isPendingOk_spec p (hall p (List.mem_cons_self _ _))
      rw [List.cons_append, deleteLoop_eq]
      rw [pollStepD_ok_of_pendingOk s0 hs0 reply hrp s rep _ hs]
      dsimp only
      rw [if_neg hs0]
      rw [hpend, if_neg (by decide : ¬("pending" : String) = "done")]
      obtain ⟨m, rfl⟩ : ∃ m, lc = m + 1 := ⟨lc - 1, by omega⟩
      dsimp only
      have hm : ¬m = 0 := by simp at hlen; omega
      rw [if_neg hm]
      exact ih m s0 rep b rest hs0 hpend
        (fun x hx => hall x (List.mem_cons_of_mem _ hx))
        (by simp at hlen ⊢; omega)

/-! ## Claim C5 — rate limiting is terminal at every step -/

/-- C5: an HTTP 429 response — to the initial create request, to the
initial delete request, or to any reachable status poll of either
operation — makes the call fail with the rate-limited error at once,
regardless of everything the provider would answer afterwards. -/
theorem rate_limited_terminal :
    (∀ (d nm v : String) (ttl : Nat) (b : Option VReply)
        (rest : List ProviderResp),
        UpdateTxtRecord d nm v ttl (.http 429 b :: rest) =
          .error .rateLimited) ∧
    (∀ (url : String) (ttl : Nat) (b : Option VReply)
        (rest : List ProviderResp), url ≠ "" →
        DeleteTxtRecord url ttl (.http 429 b :: rest) =
          .error .rateLimited) ∧
    (∀ (d nm v : String) (ttl : Nat) (r0 : ProviderResp)
        (pre : List ProviderResp) (b : Option VReply)
        (rest : List ProviderResp),
        isPendingOk r0 = true → (∀ r ∈ pre, isPendingOk r = true) →
        pre.length ≤ 4 →
        UpdateTxtRecord d nm v ttl (r0 :: (pre ++ .http 429 b :: rest)) =
          .error .rateLimited) ∧
    (∀ (url : String) (ttl : Nat) (r0 : ProviderResp)
        (pre : List ProviderResp) (b : Option VReply)
        (rest : List ProviderResp), url ≠ "" →
        isPendingOk r0 = true → (∀ r ∈ pre, isPendingOk r = true) →
        pre.length ≤ 4 →
        DeleteTxtRecord url ttl (r0 :: (pre ++ .http 429 b :: rest)) =
          .error .rateLimited) := by
  refine ⟨?_, ?_, ?_, ?_⟩
  · intro d nm v ttl b rest
    unfold UpdateTxtRecord
    simp [doRequest, updateStatusCheck]
  · intro url ttl b rest hurl
    unfold DeleteTxtRecord
    rw [if_neg hurl]
    simp [doRequest]
  · intro d nm v ttl r0 pre b rest h0 hall hlen
    obtain ⟨s, rep, rfl, hs, hpend⟩ := isPendingOk_spec r0 h0
    unfold UpdateTxtRecord
    have hdq : doRequest (.http s (some rep) :: (pre ++ .http 429 b :: rest)) =
        .ok (s, some rep, pre ++ .http 429 b :: rest) := by
      rcases hs with rfl | rfl <;> simp [doRequest]
    rw [hdq]
    have hchk : updateStatusCheck s (some rep) = .ok rep := by
      rcases hs with rfl | rfl <;> simp [updateStatusCheck]
    dsimp only
    rw [hchk]
    exact updateLoop_429 pre 5 rep b rest hpend hall (by omega)
  · intro url ttl r0 pre b rest hurl h0 hall hlen
    obtain ⟨s, rep, rfl, hs, hpend⟩ := isPendingOk_spec r0 h0
    unfold DeleteTxtRecord
    rw [if_neg hurl]
    have hdq : doRequest (.http s (some rep) :: (pre ++ .http 429 b :: rest)) =
        .ok (s, some rep, pre ++ .http 429 b :: rest) := by
      rcases hs with rfl | rfl <;> simp [doRequest]
    rw [hdq]
    dsimp only
    have h429 : ¬s = 429 := by rcases hs with rfl | rfl <;> decide
    have hacc : ¬(s ≠ 201 ∧ s ≠ 200 ∧ s ≠ 202) := by
      rcases hs with rfl | rfl <;> simp
    rw [if_neg h429, if_neg hacc]
    have hs0 : s ≠ 404 := by rcases hs with rfl | rfl <;> decide
    exact deleteLoop_429 pre 5 s rep b rest hs0 hpend hall (by omega)

/-- Witness for C5: concrete 429 responses at the initial step and at the
first poll of both operations. -/
theorem rate_limited_terminal_witness :
    UpdateTxtRecord "d" "e" "k" 300 [.http 429 none] = .error .rateLimited ∧
    DeleteTxtRecord "http://rec" 300 [.http 429 none] = .error .rateLimited ∧
    UpdateTxtRecord "d" "e" "k" 300
        [.http 202 (some ⟨"pending", "j", ""⟩), .http 429 none] =
      .error .rateLimited ∧
    DeleteTxtRecord "http://rec" 300
        [.http 202 (some ⟨"pending", "j", ""⟩), .http 429 none] =
      .error .rateLimited :=
  ⟨rate_limited_terminal.1 "d" "e" "k" 300 none [],
   rate_limited_terminal.2.1 "http://rec" 300 none []
     (by decide),
   rate_limited_terminal.2.2.1 "d" "e" "k" 300
     (.http 202 (some ⟨"pending", "j", ""⟩)) [] none [] (by decide)
     (fun r hr => absurd hr (List.not_mem_nil r)) (by decide),
   rate_limited_terminal.2.2.2 "http://rec" 300
     (.http 202 (some ⟨"pending", "j", ""⟩)) [] none []
     (by decide) (by decide)
     (fun r hr => absurd hr (List.not_mem_nil r)) (by decide)⟩
